import Mathlib

/-!
Verification of the RLP type cache (`rlp/typecache.go`): a lazily populated,
placeholder-protected memoization cache mapping `(reflect.Type, tags)` keys to
generated codec information, together with the struct-tag parser and the
struct-field enumerator.

The Go code is shallowly embedded:
* `reflect.Type` values are identifiers (`Nat`) resolved through a type
  environment `TypeEnv` describing each type's kind and fields; this lets
  self-referential Go types (cyclic through pointers/slices) be expressed.
* the global map `typeCache` together with the `*typeinfo` heap pointers is an
  explicit state `St`: an association list `cache : typekey ↦ address` plus a
  heap `address ↦ typeinfo`; `new(typeinfo)` allocates at `nextAddr`.
  Pointer equality in Go becomes address equality here.
* the mutual recursion `cachedTypeInfo1 → genTypeInfo → makeDecoder/makeWriter
  → structFields → cachedTypeInfo1` is made total with a `fuel` parameter that
  decreases exactly when a call enters generation for a missing key (Go has no
  fuel; running out is modelled as the extra error `outOfFuel`).
* `genLog` is ghost instrumentation recording each invocation of the generator
  `genTypeInfo`, so "number of generator invocations" is expressible.
-/

namespace Typecache

/-- Struct tags, from `type tags struct` in typecache.go:
`nilOK` (rlp:"nil"), `tail` (rlp:"tail"), `ignored` (rlp:"-"). -/
structure Tags where
  nilOK : Bool
  tail : Bool
  ignored : Bool
deriving DecidableEq

/-- The zero `tags` value (`var ts tags` / `tags{}` in Go). -/
def Tags.zero : Tags := ⟨false, false, false⟩

/-- One field of a Go struct type, as seen through `reflect.StructField`:
its name, its `PkgPath` (empty iff the field is exported), the raw value of
its `rlp:"..."` tag (`f.Tag.Get("rlp")`), and the identifier of its type. -/
structure StructField where
  name : String
  pkgPath : String
  tag : String
  typ : Nat
deriving DecidableEq

/-- The shape of a Go type as the cache needs it: a struct with fields, a
slice or pointer with an element type, or a non-recursive base type for which
the generator either succeeds (`basic`) or fails (`basicFail`, standing for a
kind `makeDecoder`/`makeWriter` rejects). -/
inductive TypeDesc where
  | struct (fields : List StructField)
  | slice (elem : Nat)
  | ptr (elem : Nat)
  | basic
  | basicFail
deriving DecidableEq

/-- A type environment: resolves a type identifier to its description.
This stands for the ambient Go type graph, which may be cyclic. -/
def TypeEnv : Type := Nat → TypeDesc

/-- Embeds `type typekey struct { reflect.Type; tags }` — the cache key. -/
structure typekey where
  typ : Nat
  tags : Tags
deriving DecidableEq

/-- Whether a type description is of slice kind (`reflect.Slice`). -/
def TypeDesc.isSlice : TypeDesc → Bool
  | .slice _ => true
  | _ => false

/-- Errors returned by the subsystem. The first three are the `fmt.Errorf`
cases of `parseStructTag`; `genFail` is a failure of the underlying
decoder/writer generators; `outOfFuel` is the artefact of the fuelled
embedding and corresponds to no Go behaviour; `nilDeref` models the panic Go
would raise if `*typeCache[key]` were written while `key` is absent. -/
inductive RlpError where
  | tagPosition (fieldName : String)
  | tagType (fieldName : String)
  | tagSyntax (tok : String)
  | genFail
  | outOfFuel
  | nilDeref
deriving DecidableEq

/-- Whether an error is one of the three struct-tag parse errors. -/
def RlpError.isTagError : RlpError → Bool
  | .tagPosition _ => true
  | .tagType _ => true
  | .tagSyntax _ => true
  | _ => false

/-- Go `strings.Split(s, ",")` on the underlying character list: split at
every comma. Splitting the empty string yields one empty chunk, as in Go. -/
def splitCommaChars : List Char → List (List Char)
  | [] => [[]]
  | c :: cs =>
    if c = ',' then [] :: splitCommaChars cs
    else
      match splitCommaChars cs with
      | chunk :: rest => (c :: chunk) :: rest
      | [] => [[c]]

/-- Go `strings.Split(s, ",")` (kernel-reducible embedding; the library
`String.splitOn` is not definitionally evaluable). -/
def splitComma (s : String) : List String :=
  (splitCommaChars s.data).map String.mk

/-- Go `strings.TrimSpace` (kernel-reducible embedding): drop leading and
trailing whitespace characters. -/
def trimStr (s : String) : String :=
  String.mk (((s.data.dropWhile Char.isWhitespace).reverse.dropWhile
    Char.isWhitespace).reverse)

/-- The token loop of `parseStructTag`: iterate over the comma-separated,
whitespace-trimmed tokens of the field's rlp tag, updating the tag
configuration `ts`, and validating `tail` (position before type, as in the
source). `f` is the field at index `fi`, `n` is `typ.NumField()`, and
`fKind` is the description of the field's own type (for the
`f.Type.Kind() != reflect.Slice` check). -/
def parseTagTokens (f : StructField) (fi n : Nat) (fKind : TypeDesc) :
    List String → Tags → Except RlpError Tags
  | [], ts => .ok ts
  | tok :: rest, ts =>
    let t := trimStr tok
    if t = "" then parseTagTokens f fi n fKind rest ts
    else if t = "-" then parseTagTokens f fi n fKind rest { ts with ignored := true }
    else if t = "nil" then parseTagTokens f fi n fKind rest { ts with nilOK := true }
    else if t = "tail" then
      let ts := { ts with tail := true }
      if fi ≠ n - 1 then .error (.tagPosition f.name)
      else if ¬ fKind.isSlice then .error (.tagType f.name)
      else parseTagTokens f fi n fKind rest ts
    else .error (.tagSyntax t)

/-- Embeds `parseStructTag(typ, fi)`: parse the rlp tag of field `fi` of a struct
whose field list is `flds` (so `typ.NumField() = flds.length`), under type
environment `env`. Out-of-range `fi` is a Go panic and never occurs at call
sites; it is given the harmless default field here. -/
def parseStructTag (env : TypeEnv) (flds : List StructField) (fi : Nat) :
    Except RlpError Tags :=
  let f := flds.getD fi ⟨"", "", "", 0⟩
  parseTagTokens f fi flds.length (env f.typ) (splitComma f.tag) Tags.zero

/-- A field descriptor produced by `structFields`: `type field struct { index int; info *typeinfo }`.
The `info` pointer is an address into the explicit heap. -/
structure field where
  index : Nat
  info : Nat
deriving DecidableEq

/-- The synthesized codec function for one type, recording which nested cache
entries (by heap address) it captured. `prim` stands for the closed codecs of
non-recursive kinds; a struct codec captures its field descriptors; pointer
and slice codecs capture the `*typeinfo` of their element type. -/
inductive Codec where
  | prim
  | structCodec (fields : List field)
  | ptrCodec (elemAddr : Nat)
  | sliceCodec (elemAddr : Nat)
deriving DecidableEq

/-- Embeds `type typeinfo struct { decoder; writer }`. The zero value (both `nil`)
is the placeholder installed before generation. -/
structure typeinfo where
  decoder : Option Codec
  writer : Option Codec
deriving DecidableEq

/-- The placeholder `new(typeinfo)` — a zero-valued `typeinfo`. -/
def typeinfo.placeholder : typeinfo := ⟨none, none⟩

/-- The mutable global state of the subsystem: the map
`typeCache : map[typekey]*typeinfo` split into an association from keys to
pointer addresses plus a heap from addresses to `typeinfo` contents, the
next fresh address for `new(typeinfo)`, and a ghost log of generator
(`genTypeInfo`) invocations, most recent first. -/
structure St where
  cache : List (typekey × Nat)
  heap : List (Nat × typeinfo)
  nextAddr : Nat
  genLog : List typekey
deriving DecidableEq

/-- Map read `typeCache[key]`: `none` models the `nil` pointer for a missing
key. -/
def findEntry : List (typekey × Nat) → typekey → Option Nat
  | [], _ => none
  | (k, a) :: rest, key => if k = key then some a else findEntry rest key

/-- Map write `typeCache[key] = a`: replaces an existing binding, else adds
one. -/
def setEntry : List (typekey × Nat) → typekey → Nat → List (typekey × Nat)
  | [], key, a => [(key, a)]
  | (k, b) :: rest, key, a =>
    if k = key then (key, a) :: rest else (k, b) :: setEntry rest key a

/-- Map delete `delete(typeCache, key)`. -/
def removeEntry (c : List (typekey × Nat)) (key : typekey) : List (typekey × Nat) :=
  c.filter (fun e => decide (e.1 ≠ key))

/-- Heap read through a `*typeinfo` address. -/
def heapGet : List (Nat × typeinfo) → Nat → Option typeinfo
  | [], _ => none
  | (b, v) :: rest, a => if b = a then some v else heapGet rest a

/-- Heap write through a `*typeinfo` address (`*p = v`). -/
def heapSet : List (Nat × typeinfo) → Nat → typeinfo → List (Nat × typeinfo)
  | [], a, v => [(a, v)]
  | (b, w) :: rest, a, v =>
    if b = a then (a, v) :: rest else (b, w) :: heapSet rest a v

/-- Install the placeholder for `key`: `typeCache[key] = new(typeinfo)`,
allocating the fresh address `st.nextAddr`. -/
def installPlaceholder (st : St) (key : typekey) : St :=
  { st with
    cache := setEntry st.cache key st.nextAddr,
    heap := heapSet st.heap st.nextAddr typeinfo.placeholder,
    nextAddr := st.nextAddr + 1 }

/-- The loop body of `structFields`, iterating over the indexed field list
(`for i := 0; i < typ.NumField(); i++ { f := typ.Field(i); ... }`): skip
unexported fields (`f.PkgPath != ""`), parse each exported field's tag, skip
it if `ignored`, otherwise resolve its `typeinfo` and emit `field{i, info}`;
any error aborts the enumeration. The recursive resolution
`cachedTypeInfo1(f.Type, tags)` is abstracted as the parameter `resolve`,
through which the fuelled knot is tied below. -/
def structFieldsLoop (env : TypeEnv)
    (resolve : St → Nat → Tags → Except RlpError Nat × St)
    (flds : List StructField) :
    List (Nat × StructField) → St → Except RlpError (List field) × St
  | [], st => (.ok [], st)
  | (i, f) :: rest, st =>
    if f.pkgPath = "" then
      match parseStructTag env flds i with
      | .error e => (.error e, st)
      | .ok ts =>
        if ts.ignored then structFieldsLoop env resolve flds rest st
        else
          match resolve st f.typ ts with
          | (.error e, st1) => (.error e, st1)
          | (.ok a, st1) =>
            match structFieldsLoop env resolve flds rest st1 with
            | (.error e, st2) => (.error e, st2)
            | (.ok fs, st2) => (.ok (field.mk i a :: fs), st2)
    else structFieldsLoop env resolve flds rest st

/-- Embeds `structFields(typ)`: enumerate a struct type's fields in declaration
order. The non-struct branch is unreachable (in Go, `typ.NumField()` on a
non-struct panics; the function is only ever called on struct types). -/
def structFieldsF (env : TypeEnv)
    (resolve : St → Nat → Tags → Except RlpError Nat × St)
    (st : St) (typ : Nat) : Except RlpError (List field) × St :=
  match env typ with
  | .struct flds => structFieldsLoop env resolve flds flds.enum st
  | _ => (.ok [], st)

/-- Modelled from the spec: `makeDecoder` lives in decode.go, which is not
under src/. Per the spec's Codec Generator: struct kinds defer to the Field
Enumerator (`structFields`); pointer and slice kinds recursively resolve
their element type through the cache (with zero tags); other kinds either
synthesize a closed codec or fail. -/
def makeDecoderF (env : TypeEnv)
    (resolve : St → Nat → Tags → Except RlpError Nat × St)
    (st : St) (typ : Nat) : Except RlpError Codec × St :=
  match env typ with
  | .basic => (.ok .prim, st)
  | .basicFail => (.error .genFail, st)
  | .struct _ =>
    match structFieldsF env resolve st typ with
    | (.error e, st1) => (.error e, st1)
    | (.ok fs, st1) => (.ok (.structCodec fs), st1)
  | .ptr e =>
    match resolve st e Tags.zero with
    | (.error er, st1) => (.error er, st1)
    | (.ok a, st1) => (.ok (.ptrCodec a), st1)
  | .slice e =>
    match resolve st e Tags.zero with
    | (.error er, st1) => (.error er, st1)
    | (.ok a, st1) => (.ok (.sliceCodec a), st1)

/-- Modelled from the spec: `makeWriter` lives in encode.go, which is not
under src/. Mirrors `makeDecoder`'s recursion structure. -/
def makeWriterF (env : TypeEnv)
    (resolve : St → Nat → Tags → Except RlpError Nat × St)
    (st : St) (typ : Nat) : Except RlpError Codec × St :=
  match env typ with
  | .basic => (.ok .prim, st)
  | .basicFail => (.error .genFail, st)
  | .struct _ =>
    match structFieldsF env resolve st typ with
    | (.error e, st1) => (.error e, st1)
    | (.ok fs, st1) => (.ok (.structCodec fs), st1)
  | .ptr e =>
    match resolve st e Tags.zero with
    | (.error er, st1) => (.error er, st1)
    | (.ok a, st1) => (.ok (.ptrCodec a), st1)
  | .slice e =>
    match resolve st e Tags.zero with
    | (.error er, st1) => (.error er, st1)
    | (.ok a, st1) => (.ok (.sliceCodec a), st1)

/-- Ghost bookkeeping only: record one generator invocation for `key` in
the log. Leaves the cache, heap and allocator untouched. -/
def logGen (st : St) (key : typekey) : St :=
  { st with genLog := key :: st.genLog }

/-- Embeds `genTypeInfo(typ, tags)`: build the decoder, then the writer; either
failure aborts. The ghost `genLog` records this invocation of the
generator. -/
def genTypeInfoF (env : TypeEnv)
    (resolve : St → Nat → Tags → Except RlpError Nat × St)
    (st : St) (typ : Nat) (tg : Tags) : Except RlpError typeinfo × St :=
  let st0 : St := logGen st (typekey.mk typ tg)
  match makeDecoderF env resolve st0 typ with
  | (.error e, st1) => (.error e, st1)
  | (.ok dec, st1) =>
    match makeWriterF env resolve st1 typ with
    | (.error e, st2) => (.error e, st2)
    | (.ok wr, st2) => (.ok ⟨some dec, some wr⟩, st2)

/-- Embeds `cachedTypeInfo1(typ, tags)`: look the key up; if present return the
existing pointer unchanged; otherwise install the placeholder
`new(typeinfo)` at a fresh address, run the generator (which recurses back
into `cachedTypeInfo1` for nested field/element types), and on success copy
the generated contents into the installed entry (`*typeCache[key] = *info`)
returning `typeCache[key]`, or on failure delete the key and return the
error. `fuel` bounds the recursion depth of the embedding and is consumed
only when generation for a missing key begins; the `nilDeref` branch is
Go's panic on writing through a nil map entry and is proved unreachable
below. -/
def cachedTypeInfo1 (env : TypeEnv) : Nat → St → Nat → Tags →
    Except RlpError Nat × St
  | fuel, st, typ, tg =>
    let key : typekey := ⟨typ, tg⟩
    match findEntry st.cache key with
    | some addr => (.ok addr, st)
    | none =>
      match fuel with
      | 0 => (.error .outOfFuel, st)
      | fuel' + 1 =>
        let st1 := installPlaceholder st key
        match genTypeInfoF env (cachedTypeInfo1 env fuel') st1 typ tg with
        | (.error e, st2) => (.error e, { st2 with cache := removeEntry st2.cache key })
        | (.ok inf, st2) =>
          match findEntry st2.cache key with
          | some a => (.ok a, { st2 with heap := heapSet st2.heap a inf })
          | none => (.error .nilDeref, st2)

/-- The generator `genTypeInfo` at a given recursion budget. -/
def genTypeInfo (env : TypeEnv) (fuel : Nat) (st : St) (typ : Nat) (tg : Tags) :
    Except RlpError typeinfo × St :=
  genTypeInfoF env (cachedTypeInfo1 env fuel) st typ tg

/-- The decoder generator `makeDecoder` at a given recursion budget. -/
def makeDecoder (env : TypeEnv) (fuel : Nat) (st : St) (typ : Nat) :
    Except RlpError Codec × St :=
  makeDecoderF env (cachedTypeInfo1 env fuel) st typ

/-- The writer generator `makeWriter` at a given recursion budget. -/
def makeWriter (env : TypeEnv) (fuel : Nat) (st : St) (typ : Nat) :
    Except RlpError Codec × St :=
  makeWriterF env (cachedTypeInfo1 env fuel) st typ

/-- The field enumerator `structFields` at a given recursion budget. -/
def structFields (env : TypeEnv) (fuel : Nat) (st : St) (typ : Nat) :
    Except RlpError (List field) × St :=
  structFieldsF env (cachedTypeInfo1 env fuel) st typ

/-- Embeds `cachedTypeInfo(typ, tags)` — the public entry: read-locked fast-path
lookup; on a hit return the entry, otherwise take the write lock and defer
to `cachedTypeInfo1`. -/
def cachedTypeInfo (env : TypeEnv) (fuel : Nat) (st : St) (typ : Nat) (tg : Tags) :
    Except RlpError Nat × St :=
  match findEntry st.cache ⟨typ, tg⟩ with
  | some addr => (.ok addr, st)
  | none => cachedTypeInfo1 env fuel st typ tg

/-- The empty initial state (freshly initialized `typeCache`). -/
def St.empty : St := ⟨[], [], 0, []⟩

/-- The state at which generation of `key` begins inside `cachedTypeInfo1`:
the placeholder has been installed and the ghost log has recorded the
generator invocation. -/
def genStartState (st : St) (key : typekey) : St :=
  logGen (installPlaceholder st key) key

/-- Number of occurrences of `key` in a ghost generator log. -/
def countKey : List typekey → typekey → Nat
  | [], _ => 0
  | k0 :: rest, k => countKey rest k + (if k0 = k then 1 else 0)

/-- An execution step preserves every installed cache entry (same key, same
pointer) and performs no generator invocation for any key that was already
installed. -/
def Mono (st st' : St) : Prop :=
  ∀ k a, findEntry st.cache k = some a →
    findEntry st'.cache k = some a ∧
    countKey st'.genLog k = countKey st.genLog k

/-- A generation step for `k0` preserves every installed entry and invokes
the generator exactly once for `k0` and never for any other installed
key. -/
def GenStep (st st' : St) (k0 : typekey) : Prop :=
  ∀ k a, findEntry st.cache k = some a →
    findEntry st'.cache k = some a ∧
    countKey st'.genLog k = countKey st.genLog k + (if k0 = k then 1 else 0)

/-- The resolution function passed to the generators satisfies `Mono`. -/
def ResolverMono (resolve : St → Nat → Tags → Except RlpError Nat × St) : Prop :=
  ∀ st typ tg, Mono st (resolve st typ tg).2

/-- The resolution function leaves the resolved key installed at the
returned pointer whenever it succeeds. -/
def ResolverSound (resolve : St → Nat → Tags → Except RlpError Nat × St) : Prop :=
  ∀ st typ tg a st', resolve st typ tg = (.ok a, st') →
    findEntry st'.cache ⟨typ, tg⟩ = some a

/-- Modelled from the spec (Field Enumerator, 4.3): the declaration-order
indices of the fields a struct enumeration retains — exactly those that are
exported and whose parsed tag does not set `ignored`. Used to compare
`structFields` against the spec's description. -/
def retainedFieldIndices (env : TypeEnv) (flds : List StructField) : List Nat :=
  (flds.enum.filter fun p =>
    p.2.pkgPath == "" &&
      match parseStructTag env flds p.1 with
      | .ok ts => !ts.ignored
      | .error _ => false).map Prod.fst

/-- An example type environment exercising the behaviours of interest:
`0` is `Node { Next *Node }` (self-referential through one pointer
indirection, via `1 = *Node`); `2` is `Tree { Children []Tree }`
(self-referential through one slice indirection, via `3 = []Tree`);
`4` is a basic kind (e.g. `uint`); `5` is a kind the generator rejects;
`6` is a struct whose second field carries an unknown tag token;
`7` has `tail` on a last field that is not a slice;
`8` has `tail` on a non-last (slice) field;
`9` has a valid `tail` on a last slice field;
`10` has `tail` on a non-last field that is also not a slice. -/
def exEnv : TypeEnv := fun t =>
  match t with
  | 0 => .struct [⟨"Next", "", "", 1⟩]
  | 1 => .ptr 0
  | 2 => .struct [⟨"Children", "", "", 3⟩]
  | 3 => .slice 2
  | 4 => .basic
  | 5 => .basicFail
  | 6 => .struct [⟨"A", "", "", 4⟩, ⟨"B", "", "zzz", 4⟩]
  | 7 => .struct [⟨"A", "", "tail", 4⟩]
  | 8 => .struct [⟨"A", "", "tail", 3⟩, ⟨"B", "", "", 4⟩]
  | 9 => .struct [⟨"A", "", "tail", 3⟩]
  | 10 => .struct [⟨"A", "", "tail", 4⟩, ⟨"B", "", "", 4⟩]
  | _ => .basic

/-- The phase of one concurrent caller of `cachedTypeInfo`:
it has not yet performed the read-locked lookup (`start`), it has looked
up, missed, and is waiting for the write lock (`missed`), or it has
returned (`done`). -/
inductive TPhase where
  | start
  | missed
  | done (r : Except RlpError Nat)

/-- A configuration of `n` concurrent callers all resolving the same key:
the shared cache state plus each caller's phase. -/
structure Conc where
  shared : St
  threads : List TPhase

/-- Interleaving semantics of concurrent `cachedTypeInfo(typ, tg)` calls.
The read-locked map lookup is one atomic step (`hit`/`miss`: readers never
observe a map mutation in progress, because mutations happen only under
the exclusive lock); the write-locked section is one atomic step (`build`:
a thread holding the exclusive lock runs `cachedTypeInfo1` — including its
re-check and any recursive generation — with no interference, because no
other reader or writer can hold the lock concurrently). Any interleaving
of these atomic steps is admitted. -/
inductive CStep (env : TypeEnv) (fuel : Nat) (typ : Nat) (tg : Tags) :
    Conc → Conc → Prop where
  | hit (c : Conc) (i : Nat) (a : Nat) :
      c.threads[i]? = some .start →
      findEntry c.shared.cache ⟨typ, tg⟩ = some a →
      CStep env fuel typ tg c ⟨c.shared, c.threads.set i (.done (.ok a))⟩
  | miss (c : Conc) (i : Nat) :
      c.threads[i]? = some .start →
      findEntry c.shared.cache ⟨typ, tg⟩ = none →
      CStep env fuel typ tg c ⟨c.shared, c.threads.set i .missed⟩
  | build (c : Conc) (i : Nat) (r : Except RlpError Nat) (st' : St) :
      c.threads[i]? = some .missed →
      cachedTypeInfo1 env fuel c.shared typ tg = (r, st') →
      CStep env fuel typ tg c ⟨st', c.threads.set i (.done r)⟩

/-- Invariant of the concurrency model for one fresh key: the thread count
is stable, and the shared state is either still the initial one (no build
has happened; threads have at most looked up and missed) or exactly the
state left by the single successful build, after which finished threads all
hold the built pointer. -/
def ConcInv (st0 st1 : St) (a n : Nat) (c : Conc) : Prop :=
  c.threads.length = n ∧
    ((c.shared = st0 ∧ ∀ ph ∈ c.threads, ph = .start ∨ ph = .missed) ∨
     (c.shared = st1 ∧ ∀ ph ∈ c.threads,
        ph = .start ∨ ph = .missed ∨ ph = .done (.ok a)))

theorem findEntry_setEntry_self (c : List (typekey × Nat)) (k : typekey) (a : Nat) :
    findEntry (setEntry c k a) k = some a := by
  induction c with
  | nil => simp [setEntry, findEntry]
  | cons hd tl ih =>
    obtain ⟨k0, b⟩ := hd
    by_cases h : k0 = k
    · simp [setEntry, h, findEntry]
    · simp [setEntry, h, findEntry, ih]

theorem findEntry_setEntry_ne (c : List (typekey × Nat)) (k k' : typekey) (a : Nat)
    (h : k' ≠ k) : findEntry (setEntry c k a) k' = findEntry c k' := by
  induction c with
  | nil => simp [setEntry, findEntry, Ne.symm h]
  | cons hd tl ih =>
    obtain ⟨k0, b⟩ := hd
    by_cases h0 : k0 = k
    · subst h0
      simp [setEntry, findEntry, Ne.symm h]
    · simp [setEntry, h0, findEntry, ih]

theorem findEntry_removeEntry_self (c : List (typekey × Nat)) (k : typekey) :
    findEntry (removeEntry c k) k = none := by
  induction c with
  | nil => rfl
  | cons hd tl ih =>
    obtain ⟨k0, b⟩ := hd
    by_cases h : k0 = k
    · simpa [removeEntry, List.filter_cons, h] using ih
    · simpa [removeEntry, List.filter_cons, h, findEntry] using ih

theorem findEntry_removeEntry_ne (c : List (typekey × Nat)) (k k' : typekey)
    (h : k' ≠ k) : findEntry (removeEntry c k) k' = findEntry c k' := by
  induction c with
  | nil => rfl
  | cons hd tl ih =>
    obtain ⟨k0, b⟩ := hd
    by_cases h0 : k0 = k
    · subst h0
      simpa [removeEntry, List.filter_cons, findEntry, Ne.symm h] using ih
    · by_cases h1 : k0 = k'
      · simp [removeEntry, List.filter_cons, h0, findEntry, h1, h]
      · simpa [removeEntry, List.filter_cons, h0, findEntry, h1] using ih

theorem cachedTypeInfo1_hit (env : TypeEnv) (fuel : Nat) (st : St) (typ : Nat)
    (tg : Tags) (a : Nat) (h : findEntry st.cache ⟨typ, tg⟩ = some a) :
    cachedTypeInfo1 env fuel st typ tg = (.ok a, st) := by
  rw [cachedTypeInfo1.eq_def]
  simp [h]

theorem parseTagTokens_cons (f : StructField) (fi n : Nat) (fKind : TypeDesc)
    (tok : String) (rest : List String) (ts : Tags) :
    parseTagTokens f fi n fKind (tok :: rest) ts =
      (if trimStr tok = "" then parseTagTokens f fi n fKind rest ts
       else if trimStr tok = "-" then
         parseTagTokens f fi n fKind rest { ts with ignored := true }
       else if trimStr tok = "nil" then
         parseTagTokens f fi n fKind rest { ts with nilOK := true }
       else if trimStr tok = "tail" then
         if fi ≠ n - 1 then .error (.tagPosition f.name)
         else if ¬ fKind.isSlice then .error (.tagType f.name)
         else parseTagTokens f fi n fKind rest { ts with tail := true }
       else .error (.tagSyntax (trimStr tok))) := rfl

theorem parseTagTokens_tail_nonlast (f : StructField) (fi n : Nat)
    (fKind : TypeDesc) (rest : List String) (hfi : fi ≠ n - 1) :
    ∀ (pre : List String) (ts : Tags),
      (∀ t ∈ pre, trimStr t = "" ∨ trimStr t = "-" ∨ trimStr t = "nil") →
      parseTagTokens f fi n fKind (pre ++ "tail" :: rest) ts =
        .error (.tagPosition f.name) := by
  intro pre
  induction pre with
  | nil =>
    intro ts _
    rw [List.nil_append, parseTagTokens_cons]
    have h1 : trimStr "tail" = "tail" := rfl
    rw [h1]
    simp [hfi]
  | cons t pre ih =>
    intro ts hpre
    rw [List.cons_append, parseTagTokens_cons]
    have hrec : ∀ u ∈ pre, trimStr u = "" ∨ trimStr u = "-" ∨ trimStr u = "nil" :=
      fun u hu => hpre u (List.mem_cons_of_mem _ hu)
    rcases hpre t (List.mem_cons_self t pre) with h | h | h
    · rw [h]
      simp only [if_pos rfl]
      exact ih ts hrec
    · rw [h]
      simp only [reduceIte]
      exact ih _ hrec
    · rw [h]
      simp only [reduceIte]
      exact ih _ hrec

theorem parseTagTokens_ok_tail (f : StructField) (fi n : Nat) (fKind : TypeDesc) :
    ∀ (toks : List String) (ts ts' : Tags), ts.tail = false →
      parseTagTokens f fi n fKind toks ts = .ok ts' → ts'.tail = true →
      fi = n - 1 ∧ fKind.isSlice = true := by
  intro toks
  induction toks with
  | nil =>
    intro ts ts' h0 heq ht
    simp only [parseTagTokens] at heq
    cases heq
    rw [h0] at ht
    cases ht
  | cons tok rest ih =>
    intro ts ts' h0 heq ht
    rw [parseTagTokens_cons] at heq
    by_cases h1 : trimStr tok = ""
    · rw [if_pos h1] at heq
      exact ih ts ts' h0 heq ht
    · rw [if_neg h1] at heq
      by_cases h2 : trimStr tok = "-"
      · rw [if_pos h2] at heq
        exact ih _ ts' (by simpa using h0) heq ht
      · rw [if_neg h2] at heq
        by_cases h3 : trimStr tok = "nil"
        · rw [if_pos h3] at heq
          exact ih _ ts' (by simpa using h0) heq ht
        · rw [if_neg h3] at heq
          by_cases h4 : trimStr tok = "tail"
          · rw [if_pos h4] at heq
            by_cases h5 : fi ≠ n - 1
            · rw [if_pos h5] at heq
              cases heq
            · rw [if_neg h5] at heq
              by_cases h6 : fKind.isSlice = true
              · exact ⟨Classical.byContradiction fun hc => h5 hc, h6⟩
              · rw [if_pos h6] at heq
                cases heq
          · rw [if_neg h4] at heq
            cases heq

theorem mono_refl (st : St) : Mono st st := fun _ _ h => ⟨h, rfl⟩

theorem Mono.comp {st1 st2 st3 : St} (h1 : Mono st1 st2) (h2 : Mono st2 st3) :
    Mono st1 st3 := by
  intro k a h
  obtain ⟨hp, hc⟩ := h1 k a h
  obtain ⟨hp', hc'⟩ := h2 k a hp
  exact ⟨hp', hc'.trans hc⟩

theorem structFieldsLoop_mono (env : TypeEnv)
    (resolve : St → Nat → Tags → Except RlpError Nat × St)
    (flds : List StructField) (hres : ResolverMono resolve) :
    ∀ (l : List (Nat × StructField)) (st : St),
      Mono st (structFieldsLoop env resolve flds l st).2 := by
  intro l
  induction l with
  | nil => intro st; exact mono_refl st
  | cons p rest ih =>
    intro st
    obtain ⟨i, f⟩ := p
    simp only [structFieldsLoop]
    by_cases hp : f.pkgPath = ""
    · rw [if_pos hp]
      cases hpt : parseStructTag env flds i with
      | error e => exact mono_refl st
      | ok ts =>
        dsimp only
        by_cases hig : ts.ignored = true
        · rw [if_pos hig]
          exact ih st
        · rw [if_neg hig]
          rcases hres2 : resolve st f.typ ts with ⟨r, st1⟩
          have m1 : Mono st st1 := by
            have h := hres st f.typ ts
            rwa [hres2] at h
          cases r with
          | error e => exact m1
          | ok a =>
            dsimp only
            rcases hloop : structFieldsLoop env resolve flds rest st1 with ⟨r2, st2⟩
            have m2 : Mono st1 st2 := by
              have h := ih st1
              rwa [hloop] at h
            cases r2 with
            | error e => exact m1.comp m2
            | ok fs => exact m1.comp m2
    · rw [if_neg hp]
      exact ih st

theorem structFieldsF_mono (env : TypeEnv)
    (resolve : St → Nat → Tags → Except RlpError Nat × St)
    (hres : ResolverMono resolve) (st : St) (typ : Nat) :
    Mono st (structFieldsF env resolve st typ).2 := by
  rw [structFieldsF]
  cases env typ with
  | struct flds => exact structFieldsLoop_mono env resolve flds hres flds.enum st
  | slice e => exact mono_refl st
  | ptr e => exact mono_refl st
  | basic => exact mono_refl st
  | basicFail => exact mono_refl st

theorem makeDecoderF_mono (env : TypeEnv)
    (resolve : St → Nat → Tags → Except RlpError Nat × St)
    (hres : ResolverMono resolve) (st : St) (typ : Nat) :
    Mono st (makeDecoderF env resolve st typ).2 := by
  rw [makeDecoderF]
  cases henv : env typ with
  | struct flds =>
    dsimp only
    rcases hsf : structFieldsF env resolve st typ with ⟨r, st1⟩
    have m1 : Mono st st1 := by
      have h := structFieldsF_mono env resolve hres st typ
      rwa [hsf] at h
    cases r with
    | error e => exact m1
    | ok fs => exact m1
  | slice e =>
    dsimp only
    rcases hre : resolve st e Tags.zero with ⟨r, st1⟩
    have m1 : Mono st st1 := by
      have h := hres st e Tags.zero
      rwa [hre] at h
    cases r with
    | error er => exact m1
    | ok a => exact m1
  | ptr e =>
    dsimp only
    rcases hre : resolve st e Tags.zero with ⟨r, st1⟩
    have m1 : Mono st st1 := by
      have h := hres st e Tags.zero
      rwa [hre] at h
    cases r with
    | error er => exact m1
    | ok a => exact m1
  | basic => exact mono_refl st
  | basicFail => exact mono_refl st

theorem makeWriterF_mono (env : TypeEnv)
    (resolve : St → Nat → Tags → Except RlpError Nat × St)
    (hres : ResolverMono resolve) (st : St) (typ : Nat) :
    Mono st (makeWriterF env resolve st typ).2 := by
  rw [makeWriterF]
  cases henv : env typ with
  | struct flds =>
    dsimp only
    rcases hsf : structFieldsF env resolve st typ with ⟨r, st1⟩
    have m1 : Mono st st1 := by
      have h := structFieldsF_mono env resolve hres st typ
      rwa [hsf] at h
    cases r with
    | error e => exact m1
    | ok fs => exact m1
  | slice e =>
    dsimp only
    rcases hre : resolve st e Tags.zero with ⟨r, st1⟩
    have m1 : Mono st st1 := by
      have h := hres st e Tags.zero
      rwa [hre] at h
    cases r with
    | error er => exact m1
    | ok a => exact m1
  | ptr e =>
    dsimp only
    rcases hre : resolve st e Tags.zero with ⟨r, st1⟩
    have m1 : Mono st st1 := by
      have h := hres st e Tags.zero
      rwa [hre] at h
    cases r with
    | error er => exact m1
    | ok a => exact m1
  | basic => exact mono_refl st
  | basicFail => exact mono_refl st

theorem genTypeInfoF_genStep (env : TypeEnv)
    (resolve : St → Nat → Tags → Except RlpError Nat × St)
    (hres : ResolverMono resolve) (st : St) (typ : Nat) (tg : Tags) :
    GenStep st (genTypeInfoF env resolve st typ tg).2 ⟨typ, tg⟩ := by
  intro k a hk
  simp only [genTypeInfoF]
  have hk0 : findEntry (logGen st (typekey.mk typ tg)).cache k = some a := hk
  rcases hmd : makeDecoderF env resolve (logGen st (typekey.mk typ tg)) typ
    with ⟨rd, st1⟩
  have m1 : Mono (logGen st (typekey.mk typ tg)) st1 := by
    have h := makeDecoderF_mono env resolve hres
      (logGen st (typekey.mk typ tg)) typ
    rwa [hmd] at h
  obtain ⟨hp1, hc1⟩ := m1 k a hk0
  have hcount0 : countKey (logGen st (typekey.mk typ tg)).genLog k =
      countKey st.genLog k + (if typekey.mk typ tg = k then 1 else 0) := by
    simp [logGen, countKey]
  cases rd with
  | error e =>
    refine ⟨hp1, ?_⟩
    rw [hc1]
    exact hcount0
  | ok dec =>
    dsimp only
    rcases hmw : makeWriterF env resolve st1 typ with ⟨rw0, st2⟩
    have m2 : Mono st1 st2 := by
      have h := makeWriterF_mono env resolve hres st1 typ
      rwa [hmw] at h
    obtain ⟨hp2, hc2⟩ := m2 k a hp1
    cases rw0 with
    | error e =>
      refine ⟨hp2, ?_⟩
      rw [hc2, hc1]
      exact hcount0
    | ok wr =>
      refine ⟨hp2, ?_⟩
      rw [hc2, hc1]
      exact hcount0

theorem cachedTypeInfo1_mono (env : TypeEnv) (fuel : Nat) :
    ResolverMono (cachedTypeInfo1 env fuel) := by
  induction fuel with
  | zero =>
    intro st typ tg k a hk
    rw [cachedTypeInfo1.eq_def]
    dsimp only
    cases hfe : findEntry st.cache ⟨typ, tg⟩ with
    | some addr => exact ⟨hk, rfl⟩
    | none => exact ⟨hk, rfl⟩
  | succ fuel ih =>
    intro st typ tg k a hk
    rw [cachedTypeInfo1.eq_def]
    dsimp only
    cases hfe : findEntry st.cache ⟨typ, tg⟩ with
    | some addr => exact ⟨hk, rfl⟩
    | none =>
      dsimp only
      have hne : k ≠ ⟨typ, tg⟩ := by
        rintro rfl
        rw [hk] at hfe
        cases hfe
      have hk1 : findEntry (installPlaceholder st ⟨typ, tg⟩).cache k = some a := by
        show findEntry (setEntry st.cache ⟨typ, tg⟩ st.nextAddr) k = some a
        rw [findEntry_setEntry_ne st.cache ⟨typ, tg⟩ k st.nextAddr hne]
        exact hk
      have hgen := genTypeInfoF_genStep env (cachedTypeInfo1 env fuel) ih
        (installPlaceholder st ⟨typ, tg⟩) typ tg
      rcases hg : genTypeInfoF env (cachedTypeInfo1 env fuel)
          (installPlaceholder st ⟨typ, tg⟩) typ tg with ⟨r, st2⟩
      rw [hg] at hgen
      dsimp only at hgen
      obtain ⟨hp2, hc2⟩ := hgen k a hk1
      have hcnt : countKey st2.genLog k = countKey st.genLog k := by
        rw [hc2]
        simp [installPlaceholder, Ne.symm hne]
      cases r with
      | error e =>
        refine ⟨?_, hcnt⟩
        show findEntry (removeEntry st2.cache ⟨typ, tg⟩) k = some a
        rw [findEntry_removeEntry_ne st2.cache ⟨typ, tg⟩ k hne]
        exact hp2
      | ok inf =>
        dsimp only
        have hkey1 : findEntry (installPlaceholder st ⟨typ, tg⟩).cache ⟨typ, tg⟩ =
            some st.nextAddr := by
          show findEntry (setEntry st.cache ⟨typ, tg⟩ st.nextAddr) ⟨typ, tg⟩ = _
          exact findEntry_setEntry_self st.cache ⟨typ, tg⟩ st.nextAddr
        obtain ⟨hkey2, _⟩ := hgen ⟨typ, tg⟩ st.nextAddr hkey1
        rw [hkey2]
        exact ⟨hp2, hcnt⟩

theorem cachedTypeInfo1_ok_present (env : TypeEnv) (fuel : Nat) (st : St)
    (typ : Nat) (tg : Tags) (a : Nat) (st' : St)
    (h : cachedTypeInfo1 env fuel st typ tg = (.ok a, st')) :
    findEntry st'.cache ⟨typ, tg⟩ = some a := by
  rw [cachedTypeInfo1.eq_def] at h
  dsimp only at h
  cases hfe : findEntry st.cache ⟨typ, tg⟩ with
  | some addr =>
    rw [hfe] at h
    simp only [Prod.mk.injEq, Except.ok.injEq] at h
    obtain ⟨rfl, rfl⟩ := h
    exact hfe
  | none =>
    rw [hfe] at h
    cases fuel with
    | zero => simp at h
    | succ fuel' =>
      dsimp only at h
      rcases hg : genTypeInfoF env (cachedTypeInfo1 env fuel')
          (installPlaceholder st ⟨typ, tg⟩) typ tg with ⟨r, st2⟩
      rw [hg] at h
      cases r with
      | error e => simp at h
      | ok inf =>
        dsimp only at h
        cases hfe2 : findEntry st2.cache ⟨typ, tg⟩ with
        | some b =>
          rw [hfe2] at h
          simp only [Prod.mk.injEq, Except.ok.injEq] at h
          obtain ⟨rfl, rfl⟩ := h
          exact hfe2
        | none =>
          rw [hfe2] at h
          simp at h

theorem cachedTypeInfo1_miss_ok (env : TypeEnv) (fuel : Nat) (st : St)
    (typ : Nat) (tg : Tags) (a : Nat) (st' : St)
    (hfe : findEntry st.cache ⟨typ, tg⟩ = none)
    (h : cachedTypeInfo1 env fuel st typ tg = (.ok a, st')) :
    a = st.nextAddr ∧ findEntry st'.cache ⟨typ, tg⟩ = some st.nextAddr := by
  rw [cachedTypeInfo1.eq_def] at h
  dsimp only at h
  rw [hfe] at h
  cases fuel with
  | zero => simp at h
  | succ fuel' =>
    dsimp only at h
    have hgen := genTypeInfoF_genStep env (cachedTypeInfo1 env fuel')
      (cachedTypeInfo1_mono env fuel') (installPlaceholder st ⟨typ, tg⟩) typ tg
    rcases hg : genTypeInfoF env (cachedTypeInfo1 env fuel')
        (installPlaceholder st ⟨typ, tg⟩) typ tg with ⟨r, st2⟩
    rw [hg] at h hgen
    dsimp only at hgen
    cases r with
    | error e => simp at h
    | ok inf =>
      dsimp only at h
      have hkey1 : findEntry (installPlaceholder st ⟨typ, tg⟩).cache ⟨typ, tg⟩ =
          some st.nextAddr := by
        show findEntry (setEntry st.cache ⟨typ, tg⟩ st.nextAddr) ⟨typ, tg⟩ = _
        exact findEntry_setEntry_self st.cache ⟨typ, tg⟩ st.nextAddr
      obtain ⟨hkey2, _⟩ := hgen ⟨typ, tg⟩ st.nextAddr hkey1
      rw [hkey2] at h
      simp only [Prod.mk.injEq, Except.ok.injEq] at h
      obtain ⟨rfl, rfl⟩ := h
      exact ⟨rfl, hkey2⟩

theorem cachedTypeInfo1_err_absent (env : TypeEnv) (fuel : Nat) (st : St)
    (typ : Nat) (tg : Tags) (e : RlpError) (st' : St)
    (hfe : findEntry st.cache ⟨typ, tg⟩ = none)
    (h : cachedTypeInfo1 env fuel st typ tg = (.error e, st')) :
    findEntry st'.cache ⟨typ, tg⟩ = none := by
  rw [cachedTypeInfo1.eq_def] at h
  dsimp only at h
  rw [hfe] at h
  cases fuel with
  | zero =>
    simp only [Prod.mk.injEq, Except.error.injEq] at h
    obtain ⟨_, rfl⟩ := h
    exact hfe
  | succ fuel' =>
    dsimp only at h
    have hgen := genTypeInfoF_genStep env (cachedTypeInfo1 env fuel')
      (cachedTypeInfo1_mono env fuel') (installPlaceholder st ⟨typ, tg⟩) typ tg
    rcases hg : genTypeInfoF env (cachedTypeInfo1 env fuel')
        (installPlaceholder st ⟨typ, tg⟩) typ tg with ⟨r, st2⟩
    rw [hg] at h hgen
    dsimp only at hgen
    cases r with
    | error e2 =>
      dsimp only at h
      simp only [Prod.mk.injEq, Except.error.injEq] at h
      obtain ⟨rfl, rfl⟩ := h
      show findEntry (removeEntry st2.cache ⟨typ, tg⟩) ⟨typ, tg⟩ = none
      exact findEntry_removeEntry_self st2.cache ⟨typ, tg⟩
    | ok inf =>
      dsimp only at h
      have hkey1 : findEntry (installPlaceholder st ⟨typ, tg⟩).cache ⟨typ, tg⟩ =
          some st.nextAddr := by
        show findEntry (setEntry st.cache ⟨typ, tg⟩ st.nextAddr) ⟨typ, tg⟩ = _
        exact findEntry_setEntry_self st.cache ⟨typ, tg⟩ st.nextAddr
      obtain ⟨hkey2, _⟩ := hgen ⟨typ, tg⟩ st.nextAddr hkey1
      rw [hkey2] at h
      simp at h

theorem cachedTypeInfo1_miss_gencount (env : TypeEnv) (fuel : Nat) (st : St)
    (typ : Nat) (tg : Tags)
    (hfe : findEntry st.cache ⟨typ, tg⟩ = none) :
    countKey (cachedTypeInfo1 env (fuel + 1) st typ tg).2.genLog ⟨typ, tg⟩ =
      countKey st.genLog ⟨typ, tg⟩ + 1 := by
  rw [cachedTypeInfo1.eq_def]
  dsimp only
  rw [hfe]
  dsimp only
  have hgen := genTypeInfoF_genStep env (cachedTypeInfo1 env fuel)
    (cachedTypeInfo1_mono env fuel) (installPlaceholder st ⟨typ, tg⟩) typ tg
  rcases hg : genTypeInfoF env (cachedTypeInfo1 env fuel)
      (installPlaceholder st ⟨typ, tg⟩) typ tg with ⟨r, st2⟩
  rw [hg] at hgen
  dsimp only at hgen
  have hkey1 : findEntry (installPlaceholder st ⟨typ, tg⟩).cache ⟨typ, tg⟩ =
      some st.nextAddr := by
    show findEntry (setEntry st.cache ⟨typ, tg⟩ st.nextAddr) ⟨typ, tg⟩ = _
    exact findEntry_setEntry_self st.cache ⟨typ, tg⟩ st.nextAddr
  obtain ⟨hkey2, hcnt⟩ := hgen ⟨typ, tg⟩ st.nextAddr hkey1
  have hcnt' : countKey st2.genLog ⟨typ, tg⟩ =
      countKey st.genLog ⟨typ, tg⟩ + 1 := by
    rw [hcnt]
    simp [installPlaceholder]
  cases r with
  | error e => exact hcnt'
  | ok inf =>
    dsimp only
    rw [hkey2]
    exact hcnt'

theorem cachedTypeInfo_ok_present (env : TypeEnv) (fuel : Nat) (st : St)
    (typ : Nat) (tg : Tags) (a : Nat) (st' : St)
    (h : cachedTypeInfo env fuel st typ tg = (.ok a, st')) :
    findEntry st'.cache ⟨typ, tg⟩ = some a := by
  rw [cachedTypeInfo] at h
  cases hfe : findEntry st.cache ⟨typ, tg⟩ with
  | some b =>
    rw [hfe] at h
    simp only [Prod.mk.injEq, Except.ok.injEq] at h
    obtain ⟨rfl, rfl⟩ := h
    exact hfe
  | none =>
    rw [hfe] at h
    exact cachedTypeInfo1_ok_present env fuel st typ tg a st' h

theorem structFieldsLoop_ok_map (env : TypeEnv)
    (resolve : St → Nat → Tags → Except RlpError Nat × St)
    (flds : List StructField) :
    ∀ (l : List (Nat × StructField)) (st : St) (fs : List field) (st' : St),
      structFieldsLoop env resolve flds l st = (.ok fs, st') →
      fs.map field.index = (l.filter fun p =>
        p.2.pkgPath == "" &&
          match parseStructTag env flds p.1 with
          | .ok ts => !ts.ignored
          | .error _ => false).map Prod.fst := by
  intro l
  induction l with
  | nil =>
    intro st fs st' h
    simp only [structFieldsLoop, Prod.mk.injEq, Except.ok.injEq] at h
    obtain ⟨rfl, rfl⟩ := h
    simp
  | cons p rest ih =>
    intro st fs st' h
    obtain ⟨i, f⟩ := p
    simp only [structFieldsLoop] at h
    by_cases hp : f.pkgPath = ""
    · rw [if_pos hp] at h
      cases hpt : parseStructTag env flds i with
      | error e =>
        rw [hpt] at h
        simp at h
      | ok ts =>
        rw [hpt] at h
        dsimp only at h
        by_cases hig : ts.ignored = true
        · rw [if_pos hig] at h
          simpa [List.filter_cons, hpt, hig] using ih st fs st' h
        · rw [if_neg hig] at h
          rcases hres2 : resolve st f.typ ts with ⟨r, st1⟩
          rw [hres2] at h
          cases r with
          | error e => simp at h
          | ok a =>
            dsimp only at h
            rcases hloop : structFieldsLoop env resolve flds rest st1
              with ⟨r2, st2⟩
            rw [hloop] at h
            cases r2 with
            | error e => simp at h
            | ok fs2 =>
              dsimp only at h
              simp only [Prod.mk.injEq, Except.ok.injEq] at h
              obtain ⟨rfl, rfl⟩ := h
              simpa [List.filter_cons, hpt, hp, hig]
                using ih st1 fs2 st2 hloop
    · rw [if_neg hp] at h
      simpa [List.filter_cons, hp] using ih st fs st' h

theorem structFieldsLoop_ok_fields (env : TypeEnv)
    (resolve : St → Nat → Tags → Except RlpError Nat × St)
    (flds : List StructField) (hmono : ResolverMono resolve)
    (hsound : ResolverSound resolve) :
    ∀ (l : List (Nat × StructField)) (st : St) (fs : List field) (st' : St),
      structFieldsLoop env resolve flds l st = (.ok fs, st') →
      ∀ d ∈ fs, ∃ p ∈ l, p.1 = d.index ∧ ∃ ts,
        parseStructTag env flds p.1 = .ok ts ∧ p.2.pkgPath = "" ∧
        ts.ignored = false ∧
        findEntry st'.cache ⟨p.2.typ, ts⟩ = some d.info := by
  intro l
  induction l with
  | nil =>
    intro st fs st' h
    simp only [structFieldsLoop, Prod.mk.injEq, Except.ok.injEq] at h
    obtain ⟨rfl, rfl⟩ := h
    intro d hd
    cases hd
  | cons p rest ih =>
    intro st fs st' h
    obtain ⟨i, f⟩ := p
    simp only [structFieldsLoop] at h
    by_cases hp : f.pkgPath = ""
    · rw [if_pos hp] at h
      cases hpt : parseStructTag env flds i with
      | error e =>
        rw [hpt] at h
        simp at h
      | ok ts =>
        rw [hpt] at h
        dsimp only at h
        by_cases hig : ts.ignored = true
        · rw [if_pos hig] at h
          intro d hd
          obtain ⟨q, hq, hrest⟩ := ih st fs st' h d hd
          exact ⟨q, List.mem_cons_of_mem _ hq, hrest⟩
        · rw [if_neg hig] at h
          rcases hres2 : resolve st f.typ ts with ⟨r, st1⟩
          rw [hres2] at h
          cases r with
          | error e => simp at h
          | ok a =>
            dsimp only at h
            rcases hloop : structFieldsLoop env resolve flds rest st1
              with ⟨r2, st2⟩
            rw [hloop] at h
            cases r2 with
            | error e => simp at h
            | ok fs2 =>
              dsimp only at h
              simp only [Prod.mk.injEq, Except.ok.injEq] at h
              obtain ⟨rfl, rfl⟩ := h
              intro d hd
              rcases List.mem_cons.mp hd with rfl | hd2
              · refine ⟨(i, f), List.mem_cons_self _ _, rfl, ts, hpt, hp,
                  Bool.not_eq_true _ ▸ hig, ?_⟩
                have h1 : findEntry st1.cache ⟨f.typ, ts⟩ = some a :=
                  hsound st f.typ ts a st1 hres2
                have h2 := structFieldsLoop_mono env resolve flds hmono rest st1
                rw [hloop] at h2
                exact (h2 ⟨f.typ, ts⟩ a h1).1
              · obtain ⟨q, hq, hrest⟩ := ih st1 fs2 st2 hloop d hd2
                exact ⟨q, List.mem_cons_of_mem _ hq, hrest⟩
    · rw [if_neg hp] at h
      intro d hd
      obtain ⟨q, hq, hrest⟩ := ih st fs st' h d hd
      exact ⟨q, List.mem_cons_of_mem _ hq, hrest⟩

/-- C1: because the placeholder is installed before generation recurses, an
inner `cachedTypeInfo1` call for a key already present in the cache returns
the present entry immediately with the state (hence the generator log)
unchanged, re-entering no generation; consequently the self-referential
example types — `Node` through one pointer indirection and `Tree` through
one slice indirection — resolve successfully with a small finite recursion
budget instead of recursing unboundedly. -/
theorem present_entry_short_circuits_generation :
    (∀ (env : TypeEnv) (fuel : Nat) (st : St) (typ : Nat) (tg : Tags) (a : Nat),
      findEntry st.cache ⟨typ, tg⟩ = some a →
      cachedTypeInfo1 env fuel st typ tg = (.ok a, st)) ∧
    (cachedTypeInfo exEnv 2 St.empty 0 Tags.zero).1 = .ok 0 ∧
    (cachedTypeInfo exEnv 2 St.empty 2 Tags.zero).1 = .ok 0 := by
  refine ⟨?_, rfl, rfl⟩
  intro env fuel st typ tg a h
  exact cachedTypeInfo1_hit env fuel st typ tg a h

theorem present_entry_short_circuits_generation_witness :
    cachedTypeInfo1 exEnv 0 (cachedTypeInfo exEnv 2 St.empty 0 Tags.zero).2
      0 Tags.zero = (.ok 0, (cachedTypeInfo exEnv 2 St.empty 0 Tags.zero).2) :=
  present_entry_short_circuits_generation.1 exEnv 0
    (cachedTypeInfo exEnv 2 St.empty 0 Tags.zero).2 0 Tags.zero 0 (by rfl)

/-- C2: a cache entry's identity never changes once installed: every
operation preserves each installed key's pointer unchanged; a successful
generation returns exactly the pointer it installed (`st.nextAddr`), which
is still the cache's pointer for the key (completion copied the contents
into it in place); and for the self-referential `Node` type, the recursive
field's captured `typeinfo` pointer equals the outer type's own cache entry
pointer (address 0, the very pointer returned). -/
theorem entry_identity_stable :
    (∀ (env : TypeEnv) (fuel : Nat) (st : St) (typ : Nat) (tg : Tags)
        (k : typekey) (b : Nat), findEntry st.cache k = some b →
      findEntry (cachedTypeInfo1 env fuel st typ tg).2.cache k = some b) ∧
    (∀ (env : TypeEnv) (fuel : Nat) (st : St) (typ : Nat) (tg : Tags)
        (a : Nat) (st' : St), findEntry st.cache ⟨typ, tg⟩ = none →
      cachedTypeInfo1 env fuel st typ tg = (.ok a, st') →
      a = st.nextAddr ∧ findEntry st'.cache ⟨typ, tg⟩ = some st.nextAddr) ∧
    (cachedTypeInfo exEnv 10 St.empty 0 Tags.zero).1 = .ok 0 ∧
    findEntry (cachedTypeInfo exEnv 10 St.empty 0 Tags.zero).2.cache
      ⟨1, Tags.zero⟩ = some 1 ∧
    heapGet (cachedTypeInfo exEnv 10 St.empty 0 Tags.zero).2.heap 1 =
      some ⟨some (.ptrCodec 0), some (.ptrCodec 0)⟩ ∧
    heapGet (cachedTypeInfo exEnv 10 St.empty 0 Tags.zero).2.heap 0 =
      some ⟨some (.structCodec [⟨0, 1⟩]), some (.structCodec [⟨0, 1⟩])⟩ := by
  refine ⟨?_, ?_, rfl, rfl, rfl, rfl⟩
  · intro env fuel st typ tg k b hk
    exact ((cachedTypeInfo1_mono env fuel) st typ tg k b hk).1
  · intro env fuel st typ tg a st' hfe h
    exact cachedTypeInfo1_miss_ok env fuel st typ tg a st' hfe h

theorem entry_identity_stable_witness :
    0 = St.empty.nextAddr ∧
    findEntry (cachedTypeInfo1 exEnv 1 St.empty 4 Tags.zero).2.cache
      ⟨4, Tags.zero⟩ = some St.empty.nextAddr :=
  entry_identity_stable.2.1 exEnv 1 St.empty 4 Tags.zero 0
    (cachedTypeInfo1 exEnv 1 St.empty 4 Tags.zero).2 (by rfl) (by rfl)

/-- C3: the `tail` validations run position-first: whenever the parser
reaches the `tail` token (after inert tokens) on a field whose index is not
`NumField - 1`, it returns the position error regardless of the field's
kind — so `tail` on a non-last, non-sequence field always yields the
position error, never the type error. -/
theorem tail_position_checked_before_type (env : TypeEnv)
    (flds : List StructField) (fi : Nat) (pre rest : List String)
    (hsplit : splitComma ((flds.getD fi ⟨"", "", "", 0⟩).tag) =
      pre ++ "tail" :: rest)
    (hpre : ∀ t ∈ pre, trimStr t = "" ∨ trimStr t = "-" ∨ trimStr t = "nil")
    (hfi : fi ≠ flds.length - 1) :
    parseStructTag env flds fi =
      .error (.tagPosition (flds.getD fi ⟨"", "", "", 0⟩).name) := by
  show parseTagTokens (flds.getD fi ⟨"", "", "", 0⟩) fi flds.length
    (env (flds.getD fi ⟨"", "", "", 0⟩).typ)
    (splitComma ((flds.getD fi ⟨"", "", "", 0⟩).tag)) Tags.zero = _
  rw [hsplit]
  exact parseTagTokens_tail_nonlast (flds.getD fi ⟨"", "", "", 0⟩) fi
    flds.length (env (flds.getD fi ⟨"", "", "", 0⟩).typ) rest hfi pre
    Tags.zero hpre

theorem tail_position_checked_before_type_witness :
    parseStructTag exEnv [⟨"A", "", "tail", 4⟩, ⟨"B", "", "", 4⟩] 0 =
      .error (.tagPosition "A") :=
  tail_position_checked_before_type exEnv
    [⟨"A", "", "tail", 4⟩, ⟨"B", "", "", 4⟩] 0 [] [] (by rfl)
    (by simp) (by decide)

/-- C4: if generation for a missing key fails, the placeholder is removed —
the key is absent afterwards — the error is returned, and a subsequent
resolve for the same key runs the generator again (the ghost generator log
for that key grows by exactly one on the retry). -/
theorem failed_generation_removes_placeholder (env : TypeEnv) (fuel : Nat)
    (st : St) (typ : Nat) (tg : Tags) (e : RlpError) (st' : St)
    (hfe : findEntry st.cache ⟨typ, tg⟩ = none)
    (h : cachedTypeInfo1 env fuel st typ tg = (.error e, st')) :
    findEntry st'.cache ⟨typ, tg⟩ = none ∧
    ∀ m, countKey (cachedTypeInfo env (m + 1) st' typ tg).2.genLog ⟨typ, tg⟩ =
      countKey st'.genLog ⟨typ, tg⟩ + 1 := by
  have habs := cachedTypeInfo1_err_absent env fuel st typ tg e st' hfe h
  refine ⟨habs, fun m => ?_⟩
  rw [cachedTypeInfo, habs]
  exact cachedTypeInfo1_miss_gencount env m st' typ tg habs

theorem failed_generation_removes_placeholder_witness :
    countKey (cachedTypeInfo exEnv 1
        (cachedTypeInfo1 exEnv 1 St.empty 5 Tags.zero).2 5 Tags.zero).2.genLog
      ⟨5, Tags.zero⟩ =
    countKey (cachedTypeInfo1 exEnv 1 St.empty 5 Tags.zero).2.genLog
      ⟨5, Tags.zero⟩ + 1 :=
  (failed_generation_removes_placeholder exEnv 1 St.empty 5 Tags.zero .genFail
    (cachedTypeInfo1 exEnv 1 St.empty 5 Tags.zero).2 (by rfl) (by rfl)).2 0

/-- C5: once a `resolve` (`cachedTypeInfo`) for a key has succeeded, a
second resolve for the same key is a pure fast-path hit: it returns the
same pointer and exactly the same state — in particular the generator log
is untouched, i.e. zero generator invocations happen. -/
theorem second_resolve_is_pure_cache_hit (env : TypeEnv) (fuel fuel2 : Nat)
    (st st' : St) (typ : Nat) (tg : Tags) (a : Nat)
    (h : cachedTypeInfo env fuel st typ tg = (.ok a, st')) :
    cachedTypeInfo env fuel2 st' typ tg = (.ok a, st') := by
  have hp := cachedTypeInfo_ok_present env fuel st typ tg a st' h
  rw [cachedTypeInfo, hp]

theorem second_resolve_is_pure_cache_hit_witness :
    cachedTypeInfo exEnv 0 (cachedTypeInfo exEnv 1 St.empty 4 Tags.zero).2
      4 Tags.zero = (.ok 0, (cachedTypeInfo exEnv 1 St.empty 4 Tags.zero).2) :=
  second_resolve_is_pure_cache_hit exEnv 1 0 St.empty
    (cachedTypeInfo exEnv 1 St.empty 4 Tags.zero).2 4 Tags.zero 0 (by rfl)

/-- C6: `tail` is accepted only on a struct's last field and only when that
field's type is a slice — a successful parse that set `tail` implies both
conditions — and a violation is a parse error fatal to the enclosing
type's generation, as the two violating example types show (`7`: last field
but not a slice; `8`: slice field but not last). -/
theorem tail_only_on_last_slice_field :
    (∀ (env : TypeEnv) (flds : List StructField) (fi : Nat) (ts : Tags),
      parseStructTag env flds fi = .ok ts → ts.tail = true →
      fi = flds.length - 1 ∧
        (env ((flds.getD fi ⟨"", "", "", 0⟩).typ)).isSlice = true) ∧
    (cachedTypeInfo exEnv 10 St.empty 7 Tags.zero).1 = .error (.tagType "A") ∧
    (cachedTypeInfo exEnv 10 St.empty 8 Tags.zero).1 =
      .error (.tagPosition "A") := by
  refine ⟨?_, rfl, rfl⟩
  intro env flds fi ts hok ht
  exact parseTagTokens_ok_tail (flds.getD fi ⟨"", "", "", 0⟩) fi flds.length
    (env ((flds.getD fi ⟨"", "", "", 0⟩).typ))
    (splitComma ((flds.getD fi ⟨"", "", "", 0⟩).tag)) Tags.zero ts rfl hok ht

theorem tail_only_on_last_slice_field_witness :
    0 = ([⟨"A", "", "tail", 3⟩] : List StructField).length - 1 ∧
    (exEnv ((([⟨"A", "", "tail", 3⟩] : List StructField).getD 0
      ⟨"", "", "", 0⟩).typ)).isSlice = true :=
  tail_only_on_last_slice_field.1 exEnv [⟨"A", "", "tail", 3⟩] 0
    ⟨false, true, false⟩ (by rfl) rfl

/-- C7 counterexample: a resolve that fails with a tag error does NOT, in
general, leave the cache as if it had never run: resolving example type `6`
(first field a plain `uint`, second field an unknown tag token) fails with
the syntax error, yet the entry generated for the first field's type —
absent before the call — survives in the cache afterwards. -/
theorem tag_error_leaves_residual_entry :
    (cachedTypeInfo exEnv 10 St.empty 6 Tags.zero).1 =
      .error (.tagSyntax "zzz") ∧
    RlpError.isTagError (.tagSyntax "zzz") = true ∧
    findEntry (cachedTypeInfo exEnv 10 St.empty 6 Tags.zero).2.cache
      ⟨4, Tags.zero⟩ = some 1 ∧
    findEntry St.empty.cache ⟨4, Tags.zero⟩ = none :=
  ⟨rfl, rfl, rfl, rfl⟩

/-- C7 (amended): a resolve that fails with a tag error leaves no residual
entry for the resolved key itself — its placeholder is removed — though
entries completed for nested field types before the failure may remain. -/
theorem tag_error_removes_failed_key (env : TypeEnv) (fuel : Nat) (st : St)
    (typ : Nat) (tg : Tags) (e : RlpError) (st' : St)
    (hfe : findEntry st.cache ⟨typ, tg⟩ = none)
    (h : cachedTypeInfo env fuel st typ tg = (.error e, st'))
    (htag : e.isTagError = true) :
    findEntry st'.cache ⟨typ, tg⟩ = none := by
  rw [cachedTypeInfo, hfe] at h
  exact cachedTypeInfo1_err_absent env fuel st typ tg e st' hfe h

theorem tag_error_removes_failed_key_witness :
    findEntry (cachedTypeInfo exEnv 10 St.empty 7 Tags.zero).2.cache
      ⟨7, Tags.zero⟩ = none :=
  tag_error_removes_failed_key exEnv 10 St.empty 7 Tags.zero (.tagType "A")
    (cachedTypeInfo exEnv 10 St.empty 7 Tags.zero).2 (by rfl) (by rfl) (by rfl)

/-- C8: `structFields` matches the spec's Field Enumerator: on success the
descriptors carry, in declaration order, exactly the indices of the fields
that are exported and not `ignored` (the spec-side `retainedFieldIndices`);
each retained field's tag was parsed and its `typeinfo` resolved through
the cache, whose final state maps the key `(field type, parsed tags)` to
the descriptor's pointer; and an enumeration error (parse error or
recursive resolution error) aborts enumeration and is returned as the
enclosing struct type's generation error by `cachedTypeInfo1`. -/
theorem structFields_follows_spec :
    (∀ (env : TypeEnv) (fuel : Nat) (st : St) (typ : Nat)
        (flds : List StructField) (fs : List field) (st' : St),
      env typ = .struct flds →
      structFields env fuel st typ = (.ok fs, st') →
      fs.map field.index = retainedFieldIndices env flds ∧
      ∀ d ∈ fs, ∃ p ∈ flds.enum, p.1 = d.index ∧ ∃ ts,
        parseStructTag env flds p.1 = .ok ts ∧ p.2.pkgPath = "" ∧
        ts.ignored = false ∧
        findEntry st'.cache ⟨p.2.typ, ts⟩ = some d.info) ∧
    (∀ (env : TypeEnv) (fuel : Nat) (st : St) (typ : Nat) (tg : Tags)
        (e : RlpError) (stE : St),
      findEntry st.cache ⟨typ, tg⟩ = none →
      structFields env fuel (genStartState st ⟨typ, tg⟩) typ =
        (.error e, stE) →
      (cachedTypeInfo1 env (fuel + 1) st typ tg).1 = .error e) := by
  constructor
  · intro env fuel st typ flds fs st' henv hsf
    rw [structFields, structFieldsF, henv] at hsf
    dsimp only at hsf
    refine ⟨structFieldsLoop_ok_map env (cachedTypeInfo1 env fuel) flds
      flds.enum st fs st' hsf, ?_⟩
    exact structFieldsLoop_ok_fields env (cachedTypeInfo1 env fuel) flds
      (cachedTypeInfo1_mono env fuel)
      (fun s t g a s' hh => cachedTypeInfo1_ok_present env fuel s t g a s' hh)
      flds.enum st fs st' hsf
  · intro env fuel st typ tg e stE hfe hsf
    rw [structFields, structFieldsF] at hsf
    cases henv : env typ with
    | struct flds =>
      rw [henv] at hsf
      dsimp only at hsf
      have hmd : makeDecoderF env (cachedTypeInfo1 env fuel)
          (genStartState st ⟨typ, tg⟩) typ = (.error e, stE) := by
        rw [makeDecoderF, henv]
        dsimp only
        rw [structFieldsF, henv]
        dsimp only
        rw [hsf]
      rw [cachedTypeInfo1.eq_def]
      dsimp only
      rw [hfe]
      dsimp only
      simp only [genTypeInfoF]
      rw [genStartState] at hmd
      rw [hmd]
    | slice el =>
      rw [henv] at hsf
      dsimp only at hsf
      simp at hsf
    | ptr el =>
      rw [henv] at hsf
      dsimp only at hsf
      simp at hsf
    | basic =>
      rw [henv] at hsf
      dsimp only at hsf
      simp at hsf
    | basicFail =>
      rw [henv] at hsf
      dsimp only at hsf
      simp at hsf

theorem structFields_follows_spec_witness :
    ([⟨0, 0⟩] : List field).map field.index =
      retainedFieldIndices exEnv [⟨"Next", "", "", 1⟩] ∧
    ∀ d ∈ ([⟨0, 0⟩] : List field),
      ∃ p ∈ ([⟨"Next", "", "", 1⟩] : List StructField).enum,
        p.1 = d.index ∧ ∃ ts,
        parseStructTag exEnv [⟨"Next", "", "", 1⟩] p.1 = .ok ts ∧
        p.2.pkgPath = "" ∧ ts.ignored = false ∧
        findEntry (structFields exEnv 10 St.empty 0).2.cache
          ⟨p.2.typ, ts⟩ = some d.info :=
  structFields_follows_spec.1 exEnv 10 St.empty 0 [⟨"Next", "", "", 1⟩]
    [⟨0, 0⟩] (structFields exEnv 10 St.empty 0).2 (by rfl) (by rfl)

/-- C10: a field whose raw rlp tag string is empty parses to the zero tag
configuration (`nilOK`, `tail`, `ignored` all false) with no error, because
splitting the empty string on commas yields a single empty token, which is
a no-op. -/
theorem empty_tag_parses_to_zero (env : TypeEnv) (flds : List StructField)
    (fi : Nat) (h : (flds.getD fi ⟨"", "", "", 0⟩).tag = "") :
    parseStructTag env flds fi = .ok Tags.zero := by
  show parseTagTokens (flds.getD fi ⟨"", "", "", 0⟩) fi flds.length
    (env ((flds.getD fi ⟨"", "", "", 0⟩).typ))
    (splitComma ((flds.getD fi ⟨"", "", "", 0⟩).tag)) Tags.zero = _
  rw [h]
  rfl

theorem empty_tag_parses_to_zero_witness :
    parseStructTag exEnv [⟨"Next", "", "", 1⟩] 0 = .ok Tags.zero :=
  empty_tag_parses_to_zero exEnv [⟨"Next", "", "", 1⟩] 0 (by rfl)

theorem concInv_step (env : TypeEnv) (fuel : Nat) (typ : Nat) (tg : Tags)
    (st0 st1 : St) (a n : Nat)
    (hfe : findEntry st0.cache ⟨typ, tg⟩ = none)
    (hb : cachedTypeInfo1 env fuel st0 typ tg = (.ok a, st1))
    (cb c' : Conc) (hstep : CStep env fuel typ tg cb c')
    (hinv : ConcInv st0 st1 a n cb) : ConcInv st0 st1 a n c' := by
  have hpres : findEntry st1.cache ⟨typ, tg⟩ = some a :=
    cachedTypeInfo1_ok_present env fuel st0 typ tg a st1 hb
  obtain ⟨hlen, hcase⟩ := hinv
  cases hstep with
  | hit i a2 hth hfind =>
    rcases hcase with ⟨hsh, hph⟩ | ⟨hsh, hph⟩
    · exfalso
      rw [hsh, hfe] at hfind
      cases hfind
    · rw [hsh, hpres] at hfind
      injection hfind with ha2
      subst ha2
      refine ⟨by simpa using hlen, Or.inr ⟨hsh, ?_⟩⟩
      intro ph h2
      rcases List.mem_or_eq_of_mem_set h2 with hmem | rfl
      · exact hph ph hmem
      · exact Or.inr (Or.inr rfl)
  | miss i hth hfind =>
    rcases hcase with ⟨hsh, hph⟩ | ⟨hsh, hph⟩
    · refine ⟨by simpa using hlen, Or.inl ⟨hsh, ?_⟩⟩
      intro ph h2
      rcases List.mem_or_eq_of_mem_set h2 with hmem | rfl
      · exact hph ph hmem
      · exact Or.inr rfl
    · refine ⟨by simpa using hlen, Or.inr ⟨hsh, ?_⟩⟩
      intro ph h2
      rcases List.mem_or_eq_of_mem_set h2 with hmem | rfl
      · exact hph ph hmem
      · exact Or.inr (Or.inl rfl)
  | build i r st' hth hrun =>
    rcases hcase with ⟨hsh, hph⟩ | ⟨hsh, hph⟩
    · rw [hsh, hb] at hrun
      simp only [Prod.mk.injEq] at hrun
      obtain ⟨hr, hst⟩ := hrun
      subst hr
      subst hst
      refine ⟨by simpa using hlen, Or.inr ⟨rfl, ?_⟩⟩
      intro ph h2
      rcases List.mem_or_eq_of_mem_set h2 with hmem | rfl
      · rcases hph ph hmem with h | h
        · exact Or.inl h
        · exact Or.inr (Or.inl h)
      · exact Or.inr (Or.inr rfl)
    · have hhit := cachedTypeInfo1_hit env fuel st1 typ tg a hpres
      rw [hsh, hhit] at hrun
      simp only [Prod.mk.injEq] at hrun
      obtain ⟨hr, hst⟩ := hrun
      subst hr
      subst hst
      refine ⟨by simpa using hlen, Or.inr ⟨rfl, ?_⟩⟩
      intro ph h2
      rcases List.mem_or_eq_of_mem_set h2 with hmem | rfl
      · exact hph ph hmem
      · exact Or.inr (Or.inr rfl)

theorem concInv_reach (env : TypeEnv) (fuel : Nat) (typ : Nat) (tg : Tags)
    (st0 st1 : St) (a n : Nat)
    (hfe : findEntry st0.cache ⟨typ, tg⟩ = none)
    (hb : cachedTypeInfo1 env fuel st0 typ tg = (.ok a, st1))
    (c : Conc)
    (hreach : Relation.ReflTransGen (CStep env fuel typ tg)
      ⟨st0, List.replicate n TPhase.start⟩ c) :
    ConcInv st0 st1 a n c := by
  induction hreach with
  | refl =>
    refine ⟨by simp, Or.inl ⟨rfl, ?_⟩⟩
    intro ph h
    exact Or.inl (List.eq_of_mem_replicate h)
  | tail h1 h2 ih =>
    exact concInv_step env fuel typ tg st0 st1 a n hfe hb _ _ h2 ih

/-- C9: in the interleaving model of the lock discipline (read-locked
lookups and the write-locked build-with-re-check are each atomic), any
execution by `n` concurrent callers of a never-before-seen key in which
the first build succeeds performs exactly one generator invocation for
that key — the write-lock re-check makes every later builder return the
present entry without regenerating — and every caller that finishes,
whether through the read-locked fast path or the exclusive section,
receives the one pointer produced by the single build. -/
theorem concurrent_resolves_single_generation (env : TypeEnv) (fuel : Nat)
    (typ : Nat) (tg : Tags) (st0 st1 : St) (a n : Nat) (c : Conc)
    (hfe : findEntry st0.cache ⟨typ, tg⟩ = none)
    (hb : cachedTypeInfo1 env fuel st0 typ tg = (.ok a, st1))
    (hreach : Relation.ReflTransGen (CStep env fuel typ tg)
      ⟨st0, List.replicate n TPhase.start⟩ c)
    (hn : 0 < n)
    (hdone : ∀ ph ∈ c.threads, ∃ r, ph = .done r) :
    countKey c.shared.genLog ⟨typ, tg⟩ =
      countKey st0.genLog ⟨typ, tg⟩ + 1 ∧
    ∀ ph ∈ c.threads, ph = .done (.ok a) := by
  obtain ⟨hlen, hcase⟩ :=
    concInv_reach env fuel typ tg st0 st1 a n hfe hb c hreach
  rcases hcase with ⟨hsh, hph⟩ | ⟨hsh, hph⟩
  · exfalso
    have hne : c.threads ≠ [] := by
      intro h0
      rw [h0] at hlen
      simp at hlen
      omega
    obtain ⟨ph, hmem⟩ := List.exists_mem_of_ne_nil c.threads hne
    obtain ⟨r, hr⟩ := hdone ph hmem
    rcases hph ph hmem with h | h <;> rw [hr] at h <;> simp at h
  · refine ⟨?_, ?_⟩
    · rw [hsh]
      cases fuel with
      | zero =>
        exfalso
        rw [cachedTypeInfo1.eq_def] at hb
        dsimp only at hb
        rw [hfe] at hb
        simp at hb
      | succ m =>
        have hg := cachedTypeInfo1_miss_gencount env m st0 typ tg hfe
        rw [hb] at hg
        exact hg
    · intro ph hmem
      obtain ⟨r, hr⟩ := hdone ph hmem
      rcases hph ph hmem with h | h | h
      · rw [hr] at h
        simp at h
      · rw [hr] at h
        simp at h
      · exact h

theorem concurrent_resolves_single_generation_witness :
    countKey ((⟨(cachedTypeInfo1 exEnv 1 St.empty 4 Tags.zero).2,
        [TPhase.done (.ok 0), TPhase.done (.ok 0)]⟩ : Conc)).shared.genLog
      ⟨4, Tags.zero⟩ =
      countKey St.empty.genLog ⟨4, Tags.zero⟩ + 1 ∧
    ∀ ph ∈ ((⟨(cachedTypeInfo1 exEnv 1 St.empty 4 Tags.zero).2,
        [TPhase.done (.ok 0), TPhase.done (.ok 0)]⟩ : Conc)).threads,
      ph = .done (.ok 0) := by
  refine concurrent_resolves_single_generation exEnv 1 4 Tags.zero St.empty
    ((cachedTypeInfo1 exEnv 1 St.empty 4 Tags.zero).2) 0 2
    (⟨(cachedTypeInfo1 exEnv 1 St.empty 4 Tags.zero).2,
      [TPhase.done (.ok 0), TPhase.done (.ok 0)]⟩ : Conc)
    (by rfl) (by rfl) ?_ (by decide) ?_
  · exact Relation.ReflTransGen.head
      (CStep.miss ⟨St.empty, List.replicate 2 TPhase.start⟩ 0 rfl rfl)
      (Relation.ReflTransGen.head
        (CStep.build ⟨St.empty,
            (List.replicate 2 TPhase.start).set 0 TPhase.missed⟩ 0
          (.ok 0) ((cachedTypeInfo1 exEnv 1 St.empty 4 Tags.zero).2) rfl rfl)
        (Relation.ReflTransGen.head
          (CStep.hit ⟨(cachedTypeInfo1 exEnv 1 St.empty 4 Tags.zero).2,
              ((List.replicate 2 TPhase.start).set 0 TPhase.missed).set 0
                (TPhase.done (.ok 0))⟩ 1 0 rfl rfl)
          Relation.ReflTransGen.refl))
  · intro ph h
    rcases List.mem_cons.mp h with rfl | h2
    · exact ⟨.ok 0, rfl⟩
    rcases List.mem_cons.mp h2 with rfl | h3
    · exact ⟨.ok 0, rfl⟩
    cases h3

end Typecache
